import Mathlib

/-!
Verification development for the `astrbot_plugin_web_analyzer_silent`
plugin.  The definitions below are a shallow embedding of the caching and
concurrent-fetch orchestration layer of `main.py`:

* `AnalysisResult` embeds the per-URL result dictionary
  `{'url': ..., 'result': ..., 'screenshot': ...}` built by
  `_process_single_url`.
* `CacheManager` embeds the cache object constructed in
  `WebAnalyzerPlugin.__init__` (lines 173-176).
* `check_cache` / `update_cache` embed `_check_cache` / `_update_cache`
  (lines 1381-1406).
* `pipelineRun` / `processSingleUrl` embed `_process_single_url`
  (lines 437-567), with the external collaborators (fetcher, HTML
  extractor, LLM, screenshot renderer) supplied as a per-URL environment
  `UrlEnv` that says, for each step, whether it succeeds, returns a falsy
  value, or raises.
* `filterInFlight`, `releaseAll` and `batchProcessUrls` embed
  `_batch_process_urls` (lines 569-616): the in-flight filter loop, the
  `finally` block that removes the batch's URLs from `processing_urls`,
  and the `asyncio.gather` fan-out over admitted URLs.
* `fillBuffer` / `collectInOrder` model the indexed result buffer of
  `asyncio.gather`: tasks may complete in any order, each completion
  stores its value at its own index, and the output is read off by index.

Screenshots are opaque blobs, modelled as `Nat` identifiers.  Time is a
`Nat` clock passed explicitly where the Python code reads the wall clock.
-/

/-- The per-URL result dictionary of `_process_single_url`:
`{'url': url, 'result': text, 'screenshot': blob-or-None}`. -/
structure AnalysisResult where
  url : String
  result : String
  screenshot : Option Nat
deriving DecidableEq, Repr

/-- Modelled from the spec: one entry of the `ExpiringCache` (§3 of the
spec).  The repository imports `CacheManager` from its `cache` module,
whose source file is not present under `src/`; the entry shape
(`key`, `value`, `created_at`, `expires_at = created_at + ttl`) follows
the spec's data model. -/
structure CacheEntry where
  key : String
  value : AnalysisResult
  created_at : Nat
  expires_at : Nat
deriving DecidableEq, Repr

/-- Modelled from the spec: the `CacheManager` imported from the
repository's `cache` module (source not under `src/`).  Per §3/§4.1 of
the spec it is a capacity-limited expiring key-value store; `entries` is
kept in insertion order, oldest first, for FIFO eviction. -/
structure CacheManager where
  max_size : Nat
  expire_time : Nat
  entries : List CacheEntry
deriving DecidableEq, Repr

namespace CacheManager

/-- Modelled from the spec: `get(key)` returns the stored value only if
`now < expires_at`; an expired or absent entry is a miss (§4.1). -/
def get (c : CacheManager) (key : String) (now : Nat) : Option AnalysisResult :=
  match c.entries.find? (fun e => e.key == key) with
  | some e => if now < e.expires_at then some e.value else none
  | none => none

/-- Whether the cache currently holds an entry for `key`, live or expired. -/
def containsKey (c : CacheManager) (key : String) : Bool :=
  c.entries.any (fun e => e.key == key)

/-- The entry that a `set key value` at time `now` stores. -/
def newEntry (c : CacheManager) (key : String) (value : AnalysisResult) (now : Nat) : CacheEntry :=
  { key := key, value := value, created_at := now, expires_at := now + c.expire_time }

/-- Modelled from the spec: `set(key, value)` inserts or overwrites
(§4.1).  Overwriting an existing key refreshes `created_at`/`expires_at`
in place and never evicts; a new key at capacity first evicts the single
oldest-inserted entry (the head of `entries`) — strict insertion-order
FIFO, not LRU. -/
def set (c : CacheManager) (key : String) (value : AnalysisResult) (now : Nat) : CacheManager :=
  if c.containsKey key then
    { c with entries :=
        c.entries.map (fun e => if e.key == key then c.newEntry key value now else e) }
  else
    { c with entries :=
        (if c.entries.length == c.max_size then c.entries.tail else c.entries)
          ++ [c.newEntry key value now] }

/-- A sequence of `set` calls, folded left to right. -/
def setMany (c : CacheManager) (ops : List (String × AnalysisResult × Nat)) : CacheManager :=
  ops.foldl (fun c op => c.set op.1 op.2.1 op.2.2) c

end CacheManager

/-- The cache-related plugin configuration and state that
`_batch_process_urls` reads: `enable_cache`, `enable_screenshot`, the
`cache_manager`, and the `processing_urls` in-flight set. -/
structure PluginState where
  enable_cache : Bool
  enable_screenshot : Bool
  cache_manager : CacheManager
  processing_urls : Finset String

/-- `_check_cache` (main.py 1381-1394): `None` when caching is disabled,
otherwise delegate to `cache_manager.get`. -/
def check_cache (enable_cache : Bool) (c : CacheManager) (url : String) (now : Nat) :
    Option AnalysisResult :=
  if enable_cache then c.get url now else none

/-- `_update_cache` (main.py 1396-1406): a no-op when caching is
disabled, otherwise `cache_manager.set`. -/
def update_cache (enable_cache : Bool) (c : CacheManager) (url : String)
    (result : AnalysisResult) (now : Nat) : CacheManager :=
  if enable_cache then c.set url result now else c

/-- The structured content returned by `analyzer.extract_content`. -/
structure ContentData where
  title : String
  content : String
  url : String
deriving DecidableEq, Repr

/-- The externally-determined outcome of each pipeline step for one URL.
`Except.error e` means the step raises an exception with message `e`;
`Except.ok none` means it returns a falsy value (`None` / empty). -/
structure UrlEnv where
  fetch : Except String (Option String)
  extract : Except String (Option ContentData)
  llm : Except String String
  screenshot : Except String (Option Nat)

/-- The text produced by `analyze_with_llm` (main.py 618-734): every
internal failure is caught and turned into the error string of lines
731-734; otherwise some formatted summary text is returned. -/
def analysisText (env : UrlEnv) : String :=
  match env.llm with
  | .error e => "❌ LLM分析过程中出现错误: " ++ e
  | .ok t => t

/-- The body of `_process_single_url` after the cache check
(main.py 471-567), including the outer `except Exception` boundary.
Returns the result dictionary together with a flag that is `true` iff
control reached the write-through point (line 557), i.e. the run ended
with `result_data` rather than an early error return. -/
def pipelineRun (enable_screenshot : Bool) (env : UrlEnv) (url : String) :
    AnalysisResult × Bool :=
  match env.fetch with
  | .error e =>
      ({ url := url, result := "❌ 处理URL时出错: " ++ url ++ "\n错误信息: " ++ e,
         screenshot := none }, false)
  | .ok none =>
      ({ url := url, result := "❌ 无法抓取网页内容: " ++ url, screenshot := none }, false)
  | .ok (some _) =>
    match env.extract with
    | .error e =>
        ({ url := url, result := "❌ 处理URL时出错: " ++ url ++ "\n错误信息: " ++ e,
           screenshot := none }, false)
    | .ok none =>
        ({ url := url, result := "❌ 无法解析网页内容: " ++ url, screenshot := none }, false)
    | .ok (some _) =>
      match (if enable_screenshot then env.screenshot else Except.ok none) with
      | .error e =>
          ({ url := url, result := "❌ 处理URL时出错: " ++ url ++ "\n错误信息: " ++ e,
             screenshot := none }, false)
      | .ok shot =>
          ({ url := url, result := analysisText env, screenshot := shot }, true)

/-- `_process_single_url` (main.py 437-567): cache hit short-circuits the
pipeline; a cache miss runs the pipeline and writes the result through to
the cache only when the run reached `result_data` (an early error return
skips `_update_cache`).  The third component records whether the pipeline
was invoked at all (false exactly on a cache hit). -/
def processSingleUrl (enable_cache enable_screenshot : Bool) (c : CacheManager)
    (env : UrlEnv) (url : String) (now : Nat) : AnalysisResult × CacheManager × Bool :=
  match check_cache enable_cache c url now with
  | some r => (r, c, false)
  | none =>
    let p := pipelineRun enable_screenshot env url
    if p.2 then (p.1, update_cache enable_cache c url p.1 now, true)
    else (p.1, c, true)

/-- The in-flight filter loop of `_batch_process_urls` (main.py 585-593):
walk the input in order, keep each URL not already in `processing_urls`,
and add kept URLs to the set so that later duplicates are dropped too.
Returns the admitted list (in input order) and the updated set. -/
def filterInFlight (active : Finset String) : List String → List String × Finset String
  | [] => ([], active)
  | url :: rest =>
    if url ∈ active then filterInFlight active rest
    else
      let p := filterInFlight (insert url active) rest
      (url :: p.1, p.2)

/-- The `finally` block of `_batch_process_urls` (main.py 612-616):
remove every admitted URL from `processing_urls` (removal of an absent
key is a no-op). -/
def releaseAll (active : Finset String) : List String → Finset String
  | [] => active
  | k :: ks => releaseAll (active.erase k) ks

/-- The sequential core of the `asyncio.gather` fan-out (main.py
604-607): run `_process_single_url` for each admitted URL, threading the
shared cache, collecting one result per URL in admitted order, plus the
list of URLs for which the pipeline was actually invoked. -/
def runBatch (enable_cache enable_screenshot : Bool) (envf : String → UrlEnv) (now : Nat) :
    CacheManager → List String → List AnalysisResult × CacheManager × List String
  | c, [] => ([], c, [])
  | c, url :: rest =>
    let p := processSingleUrl enable_cache enable_screenshot c (envf url) url now
    let q := runBatch enable_cache enable_screenshot envf now p.2.1 rest
    (p.1 :: q.1, q.2.1, if p.2.2 then url :: q.2.2 else q.2.2)

/-- The observable outcome of one `_batch_process_urls` call. -/
structure BatchOutcome where
  results : List AnalysisResult
  batchError : Option String
  resourceAcquired : Bool
  finalState : PluginState
  invoked : List String

/-- `_batch_process_urls` (main.py 569-616).  `acquire` is the outcome of
entering `async with WebAnalyzer(...)` (line 601): `Except.error e` means
resource acquisition raises and the exception escapes the batch after the
`finally` block has released the admitted URLs.  When no URL is admitted
the function returns before the `try` block, acquiring nothing and
touching nothing. -/
def batchProcessUrls (st : PluginState) (envf : String → UrlEnv) (urls : List String)
    (now : Nat) (acquire : Except String Unit) : BatchOutcome :=
  let fp := filterInFlight st.processing_urls urls
  if fp.1.isEmpty then
    { results := [], batchError := none, resourceAcquired := false,
      finalState := st, invoked := [] }
  else
    match acquire with
    | .error e =>
      { results := [], batchError := some e, resourceAcquired := false,
        finalState := { st with processing_urls := releaseAll fp.2 fp.1 },
        invoked := [] }
    | .ok _ =>
      let r := runBatch st.enable_cache st.enable_screenshot envf now st.cache_manager fp.1
      { results := r.1, batchError := none, resourceAcquired := true,
        finalState := { st with cache_manager := r.2.1,
                                processing_urls := releaseAll fp.2 fp.1 },
        invoked := r.2.2 }

/-- The indexed results buffer of `asyncio.gather`: each completed task
writes its value at its own index, in completion order `order`. -/
def fillBuffer (tasks : List AnalysisResult) (order : List Nat) : Nat → Option AnalysisResult :=
  order.foldl (fun buf i => fun j => if j = i then tasks.get? i else buf j) (fun _ => none)

/-- Reading the gather buffer back by index after all completions. -/
def collectInOrder (tasks : List AnalysisResult) (order : List Nat) :
    List (Option AnalysisResult) :=
  (List.range tasks.length).map (fillBuffer tasks order)

/-- A result text carries the human-readable error marker: its first
character is the `❌` prefix every error branch of `_process_single_url`
and `analyze_with_llm` uses. -/
def errMarked (s : String) : Prop :=
  s.data.head? = some ('❌')

/-- Whether the environment makes some step of the per-URL pipeline
raise an exception (rather than merely return a falsy value). -/
def pipelineRaises (ss : Bool) (env : UrlEnv) : Bool :=
  match env.fetch with
  | .error _ => true
  | .ok none => false
  | .ok (some _) =>
    match env.extract with
    | .error _ => true
    | .ok none => false
    | .ok (some _) =>
      match (if ss then env.screenshot else Except.ok none) with
      | .error _ => true
      | .ok _ => false

/-! ### Concrete fixtures used by the witnesses and counterexamples -/

def emptyCache : CacheManager := { max_size := 100, expire_time := 60, entries := [] }

def sampleState : PluginState :=
  { enable_cache := true, enable_screenshot := false,
    cache_manager := emptyCache, processing_urls := ∅ }

def sampleContent : ContentData := { title := "t", content := "body", url := "a" }

def sampleEnvOk : UrlEnv :=
  { fetch := Except.ok (some ("<html>")), extract := Except.ok (some sampleContent),
    llm := Except.ok ("summary"), screenshot := Except.ok none }

def sampleEnvLLMFail : UrlEnv :=
  { fetch := Except.ok (some ("<html>")), extract := Except.ok (some sampleContent),
    llm := Except.error ("boom"), screenshot := Except.ok none }

def sampleEnvFetchRaise : UrlEnv :=
  { fetch := Except.error ("timeout"), extract := Except.ok (some sampleContent),
    llm := Except.ok ("summary"), screenshot := Except.ok none }

def busyState : PluginState := { sampleState with processing_urls := {("a")} }

def noCacheState : PluginState := { sampleState with enable_cache := false }

def sampleResult : AnalysisResult :=
  { url := "a", result := "summary", screenshot := none }

def fullCache : CacheManager :=
  { max_size := 2, expire_time := 60,
    entries := [{ key := "x", value := sampleResult, created_at := 0, expires_at := 60 },
                { key := "y", value := sampleResult, created_at := 1, expires_at := 61 }] }

def clamped_cache_expire_time (x : Int) : Int := max 5 (min 10080 x)

def clamped_max_cache_size (x : Int) : Int := max 10 (min 1000 x)

/-- `WebAnalyzerPlugin.__init__` lines 164-176: clamp the configured
`cache_expire_time` into [5, 10080] and `max_cache_size` into [10, 1000]
with `max(lo, min(hi, x))`, then construct the cache manager with the
clamped values and no entries. -/
def initCacheManager (cache_expire_raw max_cache_raw : Int) : CacheManager :=
  { max_size := (clamped_max_cache_size max_cache_raw).toNat,
    expire_time := (clamped_cache_expire_time cache_expire_raw).toNat,
    entries := [] }

def cachedBEntry : CacheEntry :=
  { key := "b", value := sampleResult, created_at := 0, expires_at := 60 }

def cachedBCache : CacheManager :=
  { max_size := 100, expire_time := 60, entries := [cachedBEntry] }

def cachedBState : PluginState :=
  { enable_cache := true, enable_screenshot := false,
    cache_manager := cachedBCache, processing_urls := ∅ }

/-! ### Lemmas about the in-flight filter and release loops -/

theorem mem_filterInFlight_fst {u : String} :
    ∀ (urls : List String) (active : Finset String),
      u ∈ (filterInFlight active urls).1 ↔ u ∈ urls ∧ u ∉ active := by
  intro urls
  induction urls with
  | nil => intro active; simp [filterInFlight]
  | cons url rest ih =>
    intro active
    simp only [filterInFlight]
    by_cases h : url ∈ active
    · rw [if_pos h, ih]
      simp only [List.mem_cons]
      constructor
      · rintro ⟨hm, hn⟩
        exact ⟨Or.inr hm, hn⟩
      · rintro ⟨hm, hn⟩
        rcases hm with rfl | hm
        · exact absurd h hn
        · exact ⟨hm, hn⟩
    · rw [if_neg h]
      simp only [List.mem_cons, ih, Finset.mem_insert]
      by_cases hu : u = url
      · subst hu
        simp [h]
      · simp [hu]

theorem mem_filterInFlight_snd {u : String} :
    ∀ (urls : List String) (active : Finset String),
      u ∈ (filterInFlight active urls).2 ↔
        u ∈ active ∨ u ∈ (filterInFlight active urls).1 := by
  intro urls
  induction urls with
  | nil => intro active; simp [filterInFlight]
  | cons url rest ih =>
    intro active
    simp only [filterInFlight]
    by_cases h : url ∈ active
    · rw [if_pos h, ih]
    · rw [if_neg h]
      simp only [ih, Finset.mem_insert, List.mem_cons]
      tauto

theorem nodup_filterInFlight :
    ∀ (urls : List String) (active : Finset String),
      ((filterInFlight active urls).1).Nodup := by
  intro urls
  induction urls with
  | nil => intro active; simp [filterInFlight]
  | cons url rest ih =>
    intro active
    simp only [filterInFlight]
    by_cases h : url ∈ active
    · rw [if_pos h]; exact ih active
    · rw [if_neg h]
      refine List.nodup_cons.mpr ⟨?_, ih _⟩
      intro hmem
      rw [mem_filterInFlight_fst] at hmem
      exact hmem.2 (Finset.mem_insert_self url active)

theorem sublist_filterInFlight :
    ∀ (urls : List String) (active : Finset String),
      List.Sublist (filterInFlight active urls).1 urls := by
  intro urls
  induction urls with
  | nil => intro active; simp [filterInFlight]
  | cons url rest ih =>
    intro active
    simp only [filterInFlight]
    by_cases h : url ∈ active
    · rw [if_pos h]; exact (ih active).cons url
    · rw [if_neg h]; exact (ih _).cons₂ url

theorem mem_releaseAll {u : String} :
    ∀ (keys : List String) (active : Finset String),
      u ∈ releaseAll active keys ↔ u ∈ active ∧ u ∉ keys := by
  intro keys
  induction keys with
  | nil => intro active; simp [releaseAll]
  | cons k ks ih =>
    intro active
    simp only [releaseAll, ih, Finset.mem_erase, List.mem_cons]
    tauto

/-- Releasing an admitted batch restores the in-flight set exactly. -/
theorem releaseAll_filterInFlight (active : Finset String) (urls : List String) :
    releaseAll (filterInFlight active urls).2 (filterInFlight active urls).1 = active := by
  ext u
  rw [mem_releaseAll, mem_filterInFlight_snd]
  constructor
  · rintro ⟨ha | hf, hn⟩
    · exact ha
    · exact absurd hf hn
  · intro ha
    refine ⟨Or.inl ha, fun hf => ?_⟩
    exact ((mem_filterInFlight_fst urls active).mp hf).2 ha

/-! ### Lemmas about the per-URL pipeline -/

theorem String.data_append_eq (a b : String) : (a ++ b).data = a.data ++ b.data := rfl

theorem head?_append_of_head? {l m : List Char} {c : Char} (h : l.head? = some c) :
    (l ++ m).head? = some c := by
  cases l with
  | nil => simp at h
  | cons x xs => simpa using h

theorem errMarked_append (tail : String) (msg : String)
    (h : msg.data.head? = some ('❌')) : errMarked (msg ++ tail) := by
  unfold errMarked
  rw [String.data_append_eq]
  exact head?_append_of_head? h

/-- Every early-error branch of `_process_single_url` returns an
error-marked text, an absent screenshot, and the input URL. -/
theorem pipelineRun_fail_shape (ss : Bool) (env : UrlEnv) (url : String)
    (h : (pipelineRun ss env url).2 = false) :
    (pipelineRun ss env url).1.url = url ∧
    (pipelineRun ss env url).1.screenshot = none ∧
    errMarked (pipelineRun ss env url).1.result := by
  unfold pipelineRun
  rcases hf : env.fetch with e | oh
  · refine ⟨rfl, rfl, ?_⟩
    exact errMarked_append _ _ rfl
  · rcases oh with _ | html
    · exact ⟨rfl, rfl, errMarked_append _ _ rfl⟩
    · rcases hx : env.extract with e | oc
      · exact ⟨rfl, rfl, errMarked_append _ _ rfl⟩
      · rcases oc with _ | content
        · exact ⟨rfl, rfl, errMarked_append _ _ rfl⟩
        · rcases hs : (if ss then env.screenshot else Except.ok none) with e | shot
          · exact ⟨rfl, rfl, errMarked_append _ _ rfl⟩
          · exfalso
            unfold pipelineRun at h
            rw [hf, hx, hs] at h
            simp at h

/-- The pipeline always reports the URL it was given. -/
theorem pipelineRun_url (ss : Bool) (env : UrlEnv) (url : String) :
    (pipelineRun ss env url).1.url = url := by
  unfold pipelineRun
  rcases env.fetch with e | (_ | html)
  · rfl
  · rfl
  · rcases env.extract with e | (_ | content)
    · rfl
    · rfl
    · rcases (if ss then env.screenshot else Except.ok none) with e | shot
      · rfl
      · rfl

/-- On a successful run the cached/returned result is the URL, the
`analyze_with_llm` text, and whatever the screenshot step produced. -/
theorem pipelineRun_success_shape (ss : Bool) (env : UrlEnv) (url : String)
    (h : (pipelineRun ss env url).2 = true) :
    ∃ shot, (if ss then env.screenshot else Except.ok none) = Except.ok shot ∧
      (pipelineRun ss env url).1 =
        { url := url, result := analysisText env, screenshot := shot } := by
  rcases env with ⟨fe, ex, ll, sc⟩
  rcases fe with e | (_ | html)
  · simp [pipelineRun] at h
  · simp [pipelineRun] at h
  · rcases ex with e | (_ | content)
    · simp [pipelineRun] at h
    · simp [pipelineRun] at h
    · cases ss with
      | false => exact ⟨none, rfl, rfl⟩
      | true =>
        rcases sc with e | shot
        · simp [pipelineRun] at h
        · exact ⟨shot, rfl, rfl⟩


/-- A raising step never reaches the write-through point. -/
theorem pipelineRaises_not_success (ss : Bool) (env : UrlEnv) (url : String)
    (h : pipelineRaises ss env = true) : (pipelineRun ss env url).2 = false := by
  rcases env with ⟨fe, ex, ll, sc⟩
  rcases fe with e | (_ | html)
  · rfl
  · simp [pipelineRaises] at h
  · rcases ex with e | (_ | content)
    · rfl
    · simp [pipelineRaises] at h
    · cases ss with
      | false => simp [pipelineRaises] at h
      | true =>
        rcases sc with e | shot
        · rfl
        · simp [pipelineRaises] at h

/-! ### Lemmas about the spec-modelled cache -/

namespace CacheManager

theorem set_max_size (c : CacheManager) (k : String) (v : AnalysisResult) (now : Nat) :
    (c.set k v now).max_size = c.max_size := by
  unfold set
  split <;> rfl

theorem set_expire_time (c : CacheManager) (k : String) (v : AnalysisResult) (now : Nat) :
    (c.set k v now).expire_time = c.expire_time := by
  unfold set
  split <;> rfl

theorem set_entries_of_overwrite (c : CacheManager) (k : String) (v : AnalysisResult)
    (now : Nat) (hc : c.containsKey k = true) :
    (c.set k v now).entries =
      c.entries.map (fun e => if e.key == k then c.newEntry k v now else e) := by
  unfold set
  rw [if_pos hc]

theorem set_entries_of_new_full (c : CacheManager) (k : String) (v : AnalysisResult)
    (now : Nat) (hc : c.containsKey k = false) (hfull : c.entries.length = c.max_size) :
    (c.set k v now).entries = c.entries.tail ++ [c.newEntry k v now] := by
  unfold set
  rw [if_neg (by simp [hc]), if_pos (by simp [hfull])]

theorem set_entries_of_new_spare (c : CacheManager) (k : String) (v : AnalysisResult)
    (now : Nat) (hc : c.containsKey k = false) (hne : c.entries.length ≠ c.max_size) :
    (c.set k v now).entries = c.entries ++ [c.newEntry k v now] := by
  unfold set
  rw [if_neg (by simp [hc]), if_neg (by simp [hne])]

theorem set_length_le (c : CacheManager) (k : String) (v : AnalysisResult) (now : Nat)
    (hpos : 0 < c.max_size) (hle : c.entries.length ≤ c.max_size) :
    (c.set k v now).entries.length ≤ c.max_size := by
  by_cases hc : c.containsKey k
  · rw [set_entries_of_overwrite c k v now hc]
    simpa using hle
  · rcases Nat.lt_or_ge c.entries.length c.max_size with hlt | hge
    · rw [set_entries_of_new_spare c k v now (by simpa using hc) (Nat.ne_of_lt hlt)]
      simp only [List.length_append, List.length_cons, List.length_nil]
      omega
    · have hfull : c.entries.length = c.max_size := Nat.le_antisymm hle hge
      rw [set_entries_of_new_full c k v now (by simpa using hc) hfull]
      simp only [List.length_append, List.length_tail, List.length_cons, List.length_nil]
      omega

theorem setMany_max_size :
    ∀ (ops : List (String × AnalysisResult × Nat)) (c : CacheManager),
      (c.setMany ops).max_size = c.max_size := by
  intro ops
  induction ops with
  | nil => intro c; rfl
  | cons op rest ih =>
    intro c
    have h1 := ih (c.set op.1 op.2.1 op.2.2)
    have h2 := set_max_size c op.1 op.2.1 op.2.2
    calc (c.setMany (op :: rest)).max_size
        = ((c.set op.1 op.2.1 op.2.2).setMany rest).max_size := rfl
      _ = (c.set op.1 op.2.1 op.2.2).max_size := h1
      _ = c.max_size := h2

/-- The capacity invariant: any sequence of `set` calls keeps the entry
count within `max_size`. -/
theorem setMany_length_le :
    ∀ (ops : List (String × AnalysisResult × Nat)) (c : CacheManager),
      0 < c.max_size → c.entries.length ≤ c.max_size →
      (c.setMany ops).entries.length ≤ c.max_size := by
  intro ops
  induction ops with
  | nil => intro c _ h2; exact h2
  | cons op rest ih =>
    intro c h1 h2
    have hmax := set_max_size c op.1 op.2.1 op.2.2
    have h3 := ih (c.set op.1 op.2.1 op.2.2) (by rw [hmax]; exact h1)
      (by rw [hmax]; exact set_length_le c op.1 op.2.1 op.2.2 h1 h2)
    calc (c.setMany (op :: rest)).entries.length
        = ((c.set op.1 op.2.1 op.2.2).setMany rest).entries.length := rfl
      _ ≤ (c.set op.1 op.2.1 op.2.2).max_size := h3
      _ = c.max_size := hmax

theorem find?_replace_ne (a x : String) (n : CacheEntry) (hx : x ≠ a) (hk : n.key = a) :
    ∀ entries : List CacheEntry,
      (entries.map (fun e => if e.key == a then n else e)).find? (fun e => e.key == x)
        = entries.find? (fun e => e.key == x) := by
  intro entries
  induction entries with
  | nil => rfl
  | cons e es ih =>
    simp only [List.map_cons]
    by_cases h : e.key = a
    · rw [if_pos (by simp [h])]
      rw [List.find?_cons_of_neg _ (by simp [hk, Ne.symm hx]),
          List.find?_cons_of_neg _ (by simp [h, Ne.symm hx])]
      exact ih
    · rw [if_neg (by simp [h])]
      by_cases h2 : e.key = x
      · rw [List.find?_cons_of_pos _ (by simp [h2]), List.find?_cons_of_pos _ (by simp [h2])]
      · rw [List.find?_cons_of_neg _ (by simp [h2]), List.find?_cons_of_neg _ (by simp [h2])]
        exact ih

theorem find?_replace_self (k : String) (n : CacheEntry) (hk : n.key = k) :
    ∀ entries : List CacheEntry, entries.any (fun e => e.key == k) = true →
      (entries.map (fun e => if e.key == k then n else e)).find? (fun e => e.key == k)
        = some n := by
  intro entries
  induction entries with
  | nil => intro h; simp at h
  | cons e es ih =>
    intro h
    simp only [List.map_cons]
    by_cases he : e.key = k
    · rw [if_pos (by simp [he])]
      exact List.find?_cons_of_pos _ (by simp [hk])
    · rw [if_neg (by simp [he])]
      rw [List.find?_cons_of_neg _ (by simp [he])]
      apply ih
      simp only [List.any_cons, Bool.or_eq_true] at h
      rcases h with h | h
      · exact absurd (by simpa using h) he
      · exact h

end CacheManager

namespace CacheManager

/-- Writing one key never disturbs reads of a different key, as long as
the write does not evict (the cache is below capacity). -/
theorem get_set_ne (c : CacheManager) (a x : String) (v : AnalysisResult) (now t : Nat)
    (hx : x ≠ a) (hlen : c.entries.length < c.max_size) :
    (c.set a v now).get x t = c.get x t := by
  by_cases hc : c.containsKey a
  · unfold get
    rw [set_entries_of_overwrite c a v now hc,
        find?_replace_ne a x (c.newEntry a v now) hx rfl]
  · unfold get
    rw [set_entries_of_new_spare c a v now (by simpa using hc) (Nat.ne_of_lt hlen),
        List.find?_append]
    have hsingle : List.find? (fun e => e.key == x) [c.newEntry a v now] = none := by
      rw [List.find?_cons_of_neg _ (by simp [newEntry, Ne.symm hx])]
      rfl
    rw [hsingle, Option.or_none]

/-- Reading back the key just written yields the fresh value while the
clock is within the refreshed expiry window. -/
theorem get_set_self (c : CacheManager) (k : String) (v : AnalysisResult) (now t : Nat) :
    (c.set k v now).get k t = if t < now + c.expire_time then some v else none := by
  by_cases hc : c.containsKey k
  · unfold get
    rw [set_entries_of_overwrite c k v now hc,
        find?_replace_self k (c.newEntry k v now) rfl c.entries hc]
    rfl
  · have hcf : c.entries.any (fun e => e.key == k) = false := by
      simpa [containsKey] using hc
    have hsingle : List.find? (fun e => e.key == k) [c.newEntry k v now]
        = some (c.newEntry k v now) :=
      List.find?_cons_of_pos _ (by simp [newEntry])
    by_cases hfull : c.entries.length = c.max_size
    · have htail : (c.entries.tail).find? (fun e => e.key == k) = none := by
        rw [List.find?_eq_none]
        intro e hmem
        simpa using List.any_eq_false.mp hcf e (List.mem_of_mem_tail hmem)
      unfold get
      rw [set_entries_of_new_full c k v now (by simpa using hc) hfull,
          List.find?_append, htail, hsingle]
      rfl
    · have hnone : c.entries.find? (fun e => e.key == k) = none := by
        rw [List.find?_eq_none]
        intro e hmem
        simpa using List.any_eq_false.mp hcf e hmem
      unfold get
      rw [set_entries_of_new_spare c k v now (by simpa using hc) hfull,
          List.find?_append, hnone, hsingle]
      rfl

end CacheManager

/-! ### Lemmas about `processSingleUrl`, `runBatch` and the gather buffer -/

theorem processSingleUrl_hit (ec ss : Bool) (c : CacheManager) (env : UrlEnv)
    (url : String) (now : Nat) (r : AnalysisResult) (h : check_cache ec c url now = some r) :
    processSingleUrl ec ss c env url now = (r, c, false) := by
  unfold processSingleUrl
  rw [h]

theorem processSingleUrl_miss_fail (ec ss : Bool) (c : CacheManager) (env : UrlEnv)
    (url : String) (now : Nat) (h : check_cache ec c url now = none)
    (hp : (pipelineRun ss env url).2 = false) :
    processSingleUrl ec ss c env url now = ((pipelineRun ss env url).1, c, true) := by
  unfold processSingleUrl
  rw [h]
  simp only [hp, Bool.false_eq_true, if_false]

theorem processSingleUrl_miss_success (ec ss : Bool) (c : CacheManager) (env : UrlEnv)
    (url : String) (now : Nat) (h : check_cache ec c url now = none)
    (hp : (pipelineRun ss env url).2 = true) :
    processSingleUrl ec ss c env url now =
      ((pipelineRun ss env url).1,
       update_cache ec c url (pipelineRun ss env url).1 now, true) := by
  unfold processSingleUrl
  rw [h]
  simp only [hp, if_true]

/-- On a cache miss the pipeline is always invoked and reports the URL. -/
theorem processSingleUrl_miss (ec ss : Bool) (c : CacheManager) (env : UrlEnv)
    (url : String) (now : Nat) (h : check_cache ec c url now = none) :
    (processSingleUrl ec ss c env url now).2.2 = true ∧
    (processSingleUrl ec ss c env url now).1.url = url := by
  cases hp : (pipelineRun ss env url).2 with
  | false =>
    rw [processSingleUrl_miss_fail ec ss c env url now h hp]
    exact ⟨rfl, pipelineRun_url ss env url⟩
  | true =>
    rw [processSingleUrl_miss_success ec ss c env url now h hp]
    exact ⟨rfl, pipelineRun_url ss env url⟩

/-- One result per admitted URL, always. -/
theorem runBatch_length (ec ss : Bool) (envf : String → UrlEnv) (now : Nat) :
    ∀ (urls : List String) (c : CacheManager),
      (runBatch ec ss envf now c urls).1.length = urls.length := by
  intro urls
  induction urls with
  | nil => intro c; rfl
  | cons url rest ih =>
    intro c
    simp only [runBatch, List.length_cons]
    rw [ih]

/-- With caching disabled every URL is a miss, so every URL invokes the
pipeline. -/
theorem runBatch_invoked_no_cache (ss : Bool) (envf : String → UrlEnv) (now : Nat) :
    ∀ (urls : List String) (c : CacheManager),
      (runBatch false ss envf now c urls).2.2 = urls := by
  intro urls
  induction urls with
  | nil => intro c; rfl
  | cons url rest ih =>
    intro c
    have hmiss : check_cache false c url now = none := rfl
    have h2 := (processSingleUrl_miss false ss c (envf url) url now hmiss).1
    simp only [runBatch, h2, if_true]
    rw [ih]

theorem fillBuffer_aux (tasks : List AnalysisResult) :
    ∀ (order : List Nat) (init : Nat → Option AnalysisResult) (j : Nat),
      (order.foldl (fun buf i => fun j => if j = i then tasks.get? i else buf j) init) j
        = if j ∈ order then tasks.get? j else init j := by
  intro order
  induction order with
  | nil => intro init j; simp
  | cons i rest ih =>
    intro init j
    simp only [List.foldl_cons]
    rw [ih]
    by_cases hj : j ∈ rest
    · simp [hj]
    · by_cases hji : j = i
      · subst hji
        simp [hj]
      · simp [hj, hji]

theorem fillBuffer_eq (tasks : List AnalysisResult) (order : List Nat) (j : Nat) :
    fillBuffer tasks order j = if j ∈ order then tasks.get? j else none :=
  fillBuffer_aux tasks order (fun _ => none) j

theorem range_map_get? (l : List AnalysisResult) :
    (List.range l.length).map (fun j => l.get? j) = l.map some := by
  apply List.ext_get?
  intro n
  rw [List.get?_map, List.get?_map]
  by_cases hn : n < l.length
  · have hr : (List.range l.length).get? n = some n := by
      rw [List.get?_eq_getElem?]
      exact List.getElem?_range hn
    have hv := List.get?_eq_get hn
    rw [hr]
    show some (l.get? n) = Option.map some (l.get? n)
    rw [hv]
    rfl
  · have hr : (List.range l.length).get? n = none := by
      rw [List.get?_eq_none, List.length_range]
      omega
    have hl : l.get? n = none := by
      rw [List.get?_eq_none]
      omega
    rw [hr, hl]
    rfl

/-- Filling the gather buffer in any completion order that covers every
task index reproduces the task list in task-index order. -/
theorem collectInOrder_eq (tasks : List AnalysisResult) (order : List Nat)
    (h : ∀ i, i < tasks.length → i ∈ order) :
    collectInOrder tasks order = tasks.map some := by
  unfold collectInOrder
  rw [← range_map_get? tasks]
  apply List.map_congr_left
  intro j hj
  rw [fillBuffer_eq]
  rw [if_pos (h j (List.mem_range.mp hj))]

/-! ### Batch-level lemmas -/

theorem batchProcessUrls_processing (st : PluginState) (envf : String → UrlEnv)
    (urls : List String) (now : Nat) (acquire : Except String Unit) :
    (batchProcessUrls st envf urls now acquire).finalState.processing_urls
      = st.processing_urls := by
  unfold batchProcessUrls
  cases he : ((filterInFlight st.processing_urls urls).1).isEmpty with
  | true => simp only [he, if_true]
  | false =>
    cases acquire with
    | error e =>
      simp only [he, Bool.false_eq_true, if_false]
      exact releaseAll_filterInFlight st.processing_urls urls
    | ok u =>
      simp only [he, Bool.false_eq_true, if_false]
      exact releaseAll_filterInFlight st.processing_urls urls

theorem batchProcessUrls_results_length (st : PluginState) (envf : String → UrlEnv)
    (urls : List String) (now : Nat) :
    (batchProcessUrls st envf urls now (Except.ok ())).results.length
      = (filterInFlight st.processing_urls urls).1.length := by
  unfold batchProcessUrls
  cases he : ((filterInFlight st.processing_urls urls).1).isEmpty with
  | true =>
    simp only [he, if_true]
    rw [List.isEmpty_iff] at he
    rw [he]
    rfl
  | false =>
    simp only [he, Bool.false_eq_true, if_false]
    exact runBatch_length st.enable_cache st.enable_screenshot envf now
      (filterInFlight st.processing_urls urls).1 st.cache_manager

theorem batchProcessUrls_no_error (st : PluginState) (envf : String → UrlEnv)
    (urls : List String) (now : Nat) :
    (batchProcessUrls st envf urls now (Except.ok ())).batchError = none := by
  unfold batchProcessUrls
  cases he : ((filterInFlight st.processing_urls urls).1).isEmpty with
  | true => simp only [he, if_true]
  | false => simp only [he, Bool.false_eq_true, if_false]


/-! ### Claim theorems -/

/-- C1: every key admitted into the in-flight set at the start of a batch
has been removed from that set by the time the batch finishes, on every
exit path (nothing admitted, resource-acquisition failure aborting the
whole batch, or a full run over the admitted URLs): the tracker ends
exactly where it started, so it contains none of the batch's admitted
keys. -/
theorem batch_releases_admitted_on_all_paths (st : PluginState) (envf : String → UrlEnv)
    (urls : List String) (now : Nat) (acquire : Except String Unit) :
    (batchProcessUrls st envf urls now acquire).finalState.processing_urls
        = st.processing_urls ∧
    ∀ u ∈ (filterInFlight st.processing_urls urls).1,
      u ∉ (batchProcessUrls st envf urls now acquire).finalState.processing_urls := by
  refine ⟨batchProcessUrls_processing st envf urls now acquire, ?_⟩
  intro u hu
  rw [batchProcessUrls_processing st envf urls now acquire]
  exact ((mem_filterInFlight_fst urls st.processing_urls).mp hu).2

/-- Witness for C1 at a concrete one-URL batch. -/
theorem batch_releases_admitted_on_all_paths_witness :
    "a" ∉ (batchProcessUrls sampleState (fun _ => sampleEnvOk) [("a")] 0
      (Except.ok ())).finalState.processing_urls := by
  have h := batch_releases_admitted_on_all_paths sampleState (fun _ => sampleEnvOk)
    [("a")] 0 (Except.ok ())
  exact h.2 ("a") (by decide)

/-- C2 counterexample: the claim says an error-shaped result from a
summarizer error is never written to the cache and a later lookup stays
a miss.  On the code, `analyze_with_llm` catches the summarizer
exception internally (main.py 731-734) and returns the error string, and
`_process_single_url` then continues to line 557 and caches it: at this
concrete input the result is error-marked yet the very same lookup is a
hit afterwards. -/
theorem summarizer_error_result_is_cached :
    errMarked (processSingleUrl true false emptyCache sampleEnvLLMFail ("a") 0).1.result ∧
    (processSingleUrl true false emptyCache sampleEnvLLMFail ("a") 0).2.1.get ("a") 0
      = some (processSingleUrl true false emptyCache sampleEnvLLMFail ("a") 0).1 ∧
    (processSingleUrl true false emptyCache sampleEnvLLMFail ("a") 0).2.1.get ("a") 0
      ≠ none := by
  refine ⟨rfl, rfl, by decide⟩

/-- C2 (amended): an error result from a fetch error, a parse error, or
any exception escaping a pipeline step is never written to the cache —
the cache is left untouched, so a later lookup is still a miss and a
future call retries; a summarizer error, by contrast, is caught inside
`analyze_with_llm`, and (with caching enabled and a positive TTL) its
error-marked text is written through to the cache like a success. -/
theorem pipeline_error_cache_policy (ec ss : Bool) (c : CacheManager) (env : UrlEnv)
    (url : String) (now : Nat) :
    (check_cache ec c url now = none → (pipelineRun ss env url).2 = false →
      (processSingleUrl ec ss c env url now).2.1 = c ∧
      errMarked (processSingleUrl ec ss c env url now).1.result ∧
      (processSingleUrl ec ss c env url now).1.screenshot = none) ∧
    (check_cache true c url now = none → (pipelineRun ss env url).2 = true →
      ∀ e, env.llm = Except.error e → 0 < c.expire_time →
      errMarked (processSingleUrl true ss c env url now).1.result ∧
      (processSingleUrl true ss c env url now).2.1.get url now
        = some (processSingleUrl true ss c env url now).1) := by
  constructor
  · intro hmiss hfail
    rw [processSingleUrl_miss_fail ec ss c env url now hmiss hfail]
    have hshape := pipelineRun_fail_shape ss env url hfail
    exact ⟨rfl, hshape.2.2, hshape.2.1⟩
  · intro hmiss hsucc e he hexp
    rw [processSingleUrl_miss_success true ss c env url now hmiss hsucc]
    rcases pipelineRun_success_shape ss env url hsucc with ⟨shot, hs, hres⟩
    constructor
    · rw [hres]
      show errMarked (analysisText env)
      unfold analysisText
      rw [he]
      exact errMarked_append _ _ rfl
    · show (update_cache true c url (pipelineRun ss env url).1 now).get url now = _
      have hupd : update_cache true c url (pipelineRun ss env url).1 now
          = c.set url (pipelineRun ss env url).1 now := rfl
      rw [hupd, CacheManager.get_set_self c url (pipelineRun ss env url).1 now now,
          if_pos (by omega)]

/-- Witness for C2 (amended): the fetch-raise case leaves the cache
untouched, and the summarizer-error case is found in the cache. -/
theorem pipeline_error_cache_policy_witness :
    (processSingleUrl true false emptyCache sampleEnvFetchRaise ("a") 0).2.1 = emptyCache ∧
    (processSingleUrl true false emptyCache sampleEnvLLMFail ("a") 0).2.1.get ("a") 0
      = some (processSingleUrl true false emptyCache sampleEnvLLMFail ("a") 0).1 := by
  constructor
  · exact ((pipeline_error_cache_policy true false emptyCache sampleEnvFetchRaise
      ("a") 0).1 rfl rfl).1
  · exact ((pipeline_error_cache_policy true false emptyCache sampleEnvLLMFail
      ("a") 0).2 rfl rfl ("boom") rfl (by decide)).2

/-- C4: the batch never propagates an exception and yields exactly one
result entry per admitted URL; an exception raised while processing a
single URL is caught at that URL's boundary and converted into a result
whose text carries the error marker and whose screenshot is absent, so
it cannot abort sibling URLs. -/
theorem per_url_exception_contained (st : PluginState) (envf : String → UrlEnv)
    (urls : List String) (now : Nat) (ec ss : Bool) (c : CacheManager) (env : UrlEnv)
    (url : String) (now2 : Nat) :
    (batchProcessUrls st envf urls now (Except.ok ())).batchError = none ∧
    (batchProcessUrls st envf urls now (Except.ok ())).results.length
      = (filterInFlight st.processing_urls urls).1.length ∧
    (check_cache ec c url now2 = none → pipelineRaises ss env = true →
      (processSingleUrl ec ss c env url now2).1.url = url ∧
      (processSingleUrl ec ss c env url now2).1.screenshot = none ∧
      errMarked (processSingleUrl ec ss c env url now2).1.result) := by
  refine ⟨batchProcessUrls_no_error st envf urls now,
    batchProcessUrls_results_length st envf urls now, ?_⟩
  intro hmiss hraise
  have hfail := pipelineRaises_not_success ss env url hraise
  rw [processSingleUrl_miss_fail ec ss c env url now2 hmiss hfail]
  have hshape := pipelineRun_fail_shape ss env url hfail
  exact ⟨hshape.1, hshape.2.1, hshape.2.2⟩

/-- Witness for C4 at a URL whose fetch raises. -/
theorem per_url_exception_contained_witness :
    (processSingleUrl true false emptyCache sampleEnvFetchRaise ("a") 0).1.screenshot
      = none := by
  have h := per_url_exception_contained sampleState (fun _ => sampleEnvOk) [("a")] 0
    true false emptyCache sampleEnvFetchRaise ("a") 0
  exact (h.2.2 rfl rfl).2.1

/-- C5: admission into the in-flight set has set semantics: the admitted
list has no duplicates, preserves input order, contains exactly the
input keys not already in flight (keys in flight from another batch are
silently excluded), and all admitted keys end up in the in-flight set. -/
theorem admission_set_semantics (active : Finset String) (urls : List String) :
    ((filterInFlight active urls).1).Nodup ∧
    List.Sublist (filterInFlight active urls).1 urls ∧
    (∀ u, u ∈ (filterInFlight active urls).1 ↔ (u ∈ urls ∧ u ∉ active)) ∧
    (∀ u, u ∈ (filterInFlight active urls).2 ↔
      (u ∈ active ∨ u ∈ (filterInFlight active urls).1)) :=
  ⟨nodup_filterInFlight urls active, sublist_filterInFlight urls active,
   fun _ => mem_filterInFlight_fst urls active,
   fun _ => mem_filterInFlight_snd urls active⟩

/-- Witness for C5: `{k, k}` is admitted once. -/
theorem admission_set_semantics_witness :
    ((filterInFlight (∅ : Finset String) [("k"), ("k")]).1).Nodup :=
  (admission_set_semantics ∅ [("k"), ("k")]).1

/-- C6: the batch produces one result per admitted URL in admitted
order, and the indexed gather buffer reproduces exactly that sequence
under every completion order that covers all task indices — completion
order cannot change result order. -/
theorem results_match_admitted_order (st : PluginState) (envf : String → UrlEnv)
    (urls : List String) (now : Nat) (order : List Nat) :
    (batchProcessUrls st envf urls now (Except.ok ())).results.length
      = (filterInFlight st.processing_urls urls).1.length ∧
    ((∀ i, i < (batchProcessUrls st envf urls now (Except.ok ())).results.length →
        i ∈ order) →
      collectInOrder (batchProcessUrls st envf urls now (Except.ok ())).results order
        = (batchProcessUrls st envf urls now (Except.ok ())).results.map some) := by
  refine ⟨batchProcessUrls_results_length st envf urls now, ?_⟩
  intro h
  exact collectInOrder_eq _ order h

/-- Witness for C6: a two-URL batch collected in reversed completion
order still reads back in admitted order. -/
theorem results_match_admitted_order_witness :
    collectInOrder (batchProcessUrls sampleState (fun _ => sampleEnvOk) [("a"), ("b")] 0
        (Except.ok ())).results [1, 0]
      = (batchProcessUrls sampleState (fun _ => sampleEnvOk) [("a"), ("b")] 0
        (Except.ok ())).results.map some := by
  have h := results_match_admitted_order sampleState (fun _ => sampleEnvOk)
    [("a"), ("b")] 0 [1, 0]
  apply h.2
  have hl : (batchProcessUrls sampleState (fun _ => sampleEnvOk) [("a"), ("b")] 0
      (Except.ok ())).results.length = 2 := by decide
  intro i hi
  rw [hl] at hi
  rcases (by omega : i = 0 ∨ i = 1) with rfl | rfl
  · decide
  · decide

/-- C7: when every URL of the batch is already in flight, nothing is
admitted: the batch returns an empty result sequence immediately, does
not acquire the shared client resource, raises nothing, and leaves the
plugin state untouched. -/
theorem all_inflight_returns_empty (st : PluginState) (envf : String → UrlEnv)
    (urls : List String) (now : Nat) (acquire : Except String Unit)
    (h : ∀ u ∈ urls, u ∈ st.processing_urls) :
    (batchProcessUrls st envf urls now acquire).results = [] ∧
    (batchProcessUrls st envf urls now acquire).resourceAcquired = false ∧
    (batchProcessUrls st envf urls now acquire).batchError = none ∧
    (batchProcessUrls st envf urls now acquire).finalState = st := by
  have hempty : (filterInFlight st.processing_urls urls).1 = [] := by
    rw [List.eq_nil_iff_forall_not_mem]
    intro u hm
    have hu := (mem_filterInFlight_fst urls st.processing_urls).mp hm
    exact hu.2 (h u hu.1)
  unfold batchProcessUrls
  simp only [hempty, List.isEmpty_nil, if_true]
  exact ⟨trivial, trivial, trivial, trivial⟩

/-- Witness for C7: a batch whose only URL is already in flight. -/
theorem all_inflight_returns_empty_witness :
    (batchProcessUrls busyState (fun _ => sampleEnvOk) [("a")] 0
      (Except.ok ())).results = [] := by
  have h := all_inflight_returns_empty busyState (fun _ => sampleEnvOk) [("a")] 0
    (Except.ok ()) (by intro u hu; rw [List.mem_singleton] at hu; subst hu; decide)
  exact h.1


/-- C8 (spec-modelled cache): starting within capacity, the entry count
stays within capacity after a `set` — and hence after any sequence of
`set` calls; a new key arriving at capacity evicts exactly the single
oldest-inserted entry (the head of the insertion-ordered list, strict
FIFO) before appending; a new key below capacity appends with no
eviction; overwriting an existing key rewrites that key's entry in place
with refreshed timestamps — same length, nothing evicted. -/
theorem cache_capacity_fifo_eviction (c : CacheManager) (k : String) (v : AnalysisResult)
    (now : Nat) (ops : List (String × AnalysisResult × Nat))
    (hpos : 0 < c.max_size) (hle : c.entries.length ≤ c.max_size) :
    (c.set k v now).entries.length ≤ c.max_size ∧
    (c.setMany ops).entries.length ≤ c.max_size ∧
    (c.containsKey k = false → c.entries.length = c.max_size →
      (c.set k v now).entries = c.entries.tail ++ [c.newEntry k v now]) ∧
    (c.containsKey k = false → c.entries.length < c.max_size →
      (c.set k v now).entries = c.entries ++ [c.newEntry k v now]) ∧
    (c.containsKey k = true →
      (c.set k v now).entries.length = c.entries.length ∧
      (c.set k v now).entries =
        c.entries.map (fun e => if e.key == k then c.newEntry k v now else e)) := by
  refine ⟨CacheManager.set_length_le c k v now hpos hle,
    CacheManager.setMany_length_le ops c hpos hle, ?_, ?_, ?_⟩
  · intro hc hfull
    exact CacheManager.set_entries_of_new_full c k v now hc hfull
  · intro hc hlt
    exact CacheManager.set_entries_of_new_spare c k v now hc (Nat.ne_of_lt hlt)
  · intro hc
    refine ⟨?_, CacheManager.set_entries_of_overwrite c k v now hc⟩
    rw [CacheManager.set_entries_of_overwrite c k v now hc, List.length_map]

/-- Witness for C8: a full two-entry cache evicts exactly its oldest
entry when a third key arrives. -/
theorem cache_capacity_fifo_eviction_witness :
    (fullCache.set ("z") sampleResult 5).entries
      = fullCache.entries.tail ++ [fullCache.newEntry ("z") sampleResult 5] := by
  have h := cache_capacity_fifo_eviction fullCache ("z") sampleResult 5 []
    (by decide) (by decide)
  exact h.2.2.1 (by decide) (by decide)


/-- C9: for every configured pair of integers the constructor creates
the cache manager with capacity in [10, 1000] and expiry in [5, 10080];
out-of-range values are saturated to the nearest bound, in-range values
pass through unchanged. -/
theorem constructor_clamps_cache_config (e s : Int) :
    10 ≤ (initCacheManager e s).max_size ∧ (initCacheManager e s).max_size ≤ 1000 ∧
    5 ≤ (initCacheManager e s).expire_time ∧
    (initCacheManager e s).expire_time ≤ 10080 ∧
    (10 ≤ s → s ≤ 1000 → ((initCacheManager e s).max_size : Int) = s) ∧
    (5 ≤ e → e ≤ 10080 → ((initCacheManager e s).expire_time : Int) = e) := by
  unfold initCacheManager clamped_max_cache_size clamped_cache_expire_time
  simp only
  refine ⟨by omega, by omega, by omega, by omega, fun h1 h2 => by omega,
    fun h1 h2 => by omega⟩

/-- Witness for C9 at out-of-range and in-range inputs. -/
theorem constructor_clamps_cache_config_witness :
    ((initCacheManager 99999 (-3)).max_size : Int) ≤ 1000 ∧
    ((initCacheManager 99999 (-3)).max_size : Int) = 10 ∧
    ((initCacheManager 7 500).max_size : Int) = 500 := by
  refine ⟨?_, by decide, (constructor_clamps_cache_config 7 500).2.2.2.2.1
    (by decide) (by decide)⟩
  have h := (constructor_clamps_cache_config 99999 (-3)).2.1
  omega

/-- C10: with the cache flag off, the lookup helper misses for every
URL, the update helper returns the cache manager unchanged, and every
admitted URL of a batch invokes the analysis pipeline. -/
theorem cache_disabled_frame (c : CacheManager) (url : String) (now : Nat)
    (r : AnalysisResult) (st : PluginState) (envf : String → UrlEnv)
    (urls : List String) (now2 : Nat) :
    check_cache false c url now = none ∧
    update_cache false c url r now = c ∧
    (st.enable_cache = false →
      (batchProcessUrls st envf urls now2 (Except.ok ())).invoked
        = (filterInFlight st.processing_urls urls).1) := by
  refine ⟨rfl, rfl, ?_⟩
  intro hec
  unfold batchProcessUrls
  cases he : ((filterInFlight st.processing_urls urls).1).isEmpty with
  | true =>
    simp only [he, if_true]
    rw [List.isEmpty_iff] at he
    rw [he]
  | false =>
    simp only [he, Bool.false_eq_true, if_false]
    rw [hec]
    exact runBatch_invoked_no_cache st.enable_screenshot envf now2
      (filterInFlight st.processing_urls urls).1 st.cache_manager

/-- Witness for C10: with caching disabled a one-URL batch invokes the
pipeline for its URL. -/
theorem cache_disabled_frame_witness :
    (batchProcessUrls noCacheState (fun _ => sampleEnvOk) [("a")] 0
        (Except.ok ())).invoked
      = (filterInFlight noCacheState.processing_urls [("a")]).1 :=
  (cache_disabled_frame emptyCache ("a") 0 sampleResult noCacheState
    (fun _ => sampleEnvOk) [("a")] 0).2.2 rfl

/-- After a cache miss the resulting cache is either unchanged (pipeline
failed, nothing written) or the write-through of the produced result. -/
theorem processSingleUrl_cache_out (ec ss : Bool) (c : CacheManager) (env : UrlEnv)
    (url : String) (now : Nat) (hmiss : check_cache ec c url now = none) :
    (processSingleUrl ec ss c env url now).2.1 = c ∨
    (processSingleUrl ec ss c env url now).2.1
      = c.set url (processSingleUrl ec ss c env url now).1 now := by
  cases hp : (pipelineRun ss env url).2 with
  | false =>
    rw [processSingleUrl_miss_fail ec ss c env url now hmiss hp]
    exact Or.inl rfl
  | true =>
    rw [processSingleUrl_miss_success ec ss c env url now hmiss hp]
    cases ec with
    | false => exact Or.inl rfl
    | true => exact Or.inr rfl

/-- Processing one missed URL does not disturb cache reads of other
keys while the cache is below capacity. -/
theorem get_preserved_after_miss (ec ss : Bool) (cm : CacheManager) (env : UrlEnv)
    (a x : String) (now : Nat) (hmiss : check_cache ec cm a now = none)
    (hx : x ≠ a) (hlen : cm.entries.length < cm.max_size) :
    (processSingleUrl ec ss cm env a now).2.1.get x now = cm.get x now := by
  rcases processSingleUrl_cache_out ec ss cm env a now hmiss with h | h
  · rw [h]
  · rw [h]
    exact CacheManager.get_set_ne cm a x (processSingleUrl ec ss cm env a now).1 now now
      hx hlen

/-- With caching enabled, `_check_cache` is exactly the cache read. -/
theorem check_cache_true (ec : Bool) (hec : ec = true) (cm : CacheManager)
    (url : String) (now : Nat) : check_cache ec cm url now = cm.get url now := by
  subst hec
  rfl

/-- C3: for a batch `[a, b, c]` where `b` has a valid cache entry, `a`
and `c` do not, nothing is in flight, caching is on, and the cache is
below capacity, the batch returns exactly three results in input order —
the cached value used directly for `b` — and invokes the pipeline only
for `a` and `c`, not for `b`. -/
theorem cached_middle_url_skips_pipeline (st : PluginState) (envf : String → UrlEnv)
    (a b c : String) (rB : AnalysisResult) (now : Nat)
    (hec : st.enable_cache = true)
    (hab : a ≠ b) (hac : a ≠ c) (hbc : b ≠ c)
    (hpa : a ∉ st.processing_urls) (hpb : b ∉ st.processing_urls)
    (hpc : c ∉ st.processing_urls)
    (hga : st.cache_manager.get a now = none)
    (hgb : st.cache_manager.get b now = some rB)
    (hgc : st.cache_manager.get c now = none)
    (hlen : st.cache_manager.entries.length < st.cache_manager.max_size) :
    ∃ ra rc,
      (batchProcessUrls st envf [a, b, c] now (Except.ok ())).results = [ra, rB, rc] ∧
      ra.url = a ∧ rc.url = c ∧
      (batchProcessUrls st envf [a, b, c] now (Except.ok ())).invoked = [a, c] := by
  have hfst : (filterInFlight st.processing_urls [a, b, c]).1 = [a, b, c] := by
    simp [filterInFlight, hpa, hpb, hpc, Ne.symm hab, Ne.symm hac, Ne.symm hbc]
  have hmissa : check_cache st.enable_cache st.cache_manager a now = none := by
    rw [check_cache_true st.enable_cache hec st.cache_manager a now]
    exact hga
  obtain ⟨hinva, hurla⟩ := processSingleUrl_miss st.enable_cache st.enable_screenshot
    st.cache_manager (envf a) a now hmissa
  have hb1 : (processSingleUrl st.enable_cache st.enable_screenshot st.cache_manager
      (envf a) a now).2.1.get b now = some rB := by
    rw [get_preserved_after_miss st.enable_cache st.enable_screenshot st.cache_manager
      (envf a) a b now hmissa (Ne.symm hab) hlen]
    exact hgb
  have hc1 : (processSingleUrl st.enable_cache st.enable_screenshot st.cache_manager
      (envf a) a now).2.1.get c now = none := by
    rw [get_preserved_after_miss st.enable_cache st.enable_screenshot st.cache_manager
      (envf a) a c now hmissa (Ne.symm hac) hlen]
    exact hgc
  have hhitb : check_cache st.enable_cache (processSingleUrl st.enable_cache
      st.enable_screenshot st.cache_manager (envf a) a now).2.1 b now = some rB := by
    rw [check_cache_true st.enable_cache hec _ b now]
    exact hb1
  have hstepb := processSingleUrl_hit st.enable_cache st.enable_screenshot
    (processSingleUrl st.enable_cache st.enable_screenshot st.cache_manager
      (envf a) a now).2.1 (envf b) b now rB hhitb
  have hmissc : check_cache st.enable_cache (processSingleUrl st.enable_cache
      st.enable_screenshot st.cache_manager (envf a) a now).2.1 c now = none := by
    rw [check_cache_true st.enable_cache hec _ c now]
    exact hc1
  obtain ⟨hinvc, hurlc⟩ := processSingleUrl_miss st.enable_cache st.enable_screenshot
    (processSingleUrl st.enable_cache st.enable_screenshot st.cache_manager
      (envf a) a now).2.1 (envf c) c now hmissc
  refine ⟨(processSingleUrl st.enable_cache st.enable_screenshot st.cache_manager
      (envf a) a now).1,
    (processSingleUrl st.enable_cache st.enable_screenshot (processSingleUrl
      st.enable_cache st.enable_screenshot st.cache_manager (envf a) a now).2.1
      (envf c) c now).1, ?_, hurla, hurlc, ?_⟩
  · unfold batchProcessUrls
    simp only [hfst, List.isEmpty_cons, Bool.false_eq_true, if_false]
    show (runBatch st.enable_cache st.enable_screenshot envf now st.cache_manager
      [a, b, c]).1 = _
    simp only [runBatch]
    rw [hstepb]
  · unfold batchProcessUrls
    simp only [hfst, List.isEmpty_cons, Bool.false_eq_true, if_false]
    show (runBatch st.enable_cache st.enable_screenshot envf now st.cache_manager
      [a, b, c]).2.2 = _
    simp only [runBatch]
    rw [hstepb]
    simp only [hinva, hinvc, if_true, Bool.false_eq_true, if_false]


/-- Witness for C3: a concrete three-URL batch with `b` pre-cached. -/
theorem cached_middle_url_skips_pipeline_witness :
    ∃ ra rc,
      (batchProcessUrls cachedBState (fun _ => sampleEnvOk) [("a"), ("b"), ("c")] 0
        (Except.ok ())).results = [ra, sampleResult, rc] ∧
      ra.url = "a" ∧ rc.url = "c" ∧
      (batchProcessUrls cachedBState (fun _ => sampleEnvOk) [("a"), ("b"), ("c")] 0
        (Except.ok ())).invoked = [("a"), ("c")] :=
  cached_middle_url_skips_pipeline cachedBState (fun _ => sampleEnvOk) ("a") ("b") ("c")
    sampleResult 0 rfl (by decide) (by decide) (by decide) (by simp [cachedBState])
    (by simp [cachedBState]) (by simp [cachedBState]) rfl rfl rfl
    (by norm_num [cachedBState, cachedBCache])
